import Mathlib

/-!
A shallow embedding, in Lean 4, of the core of the `nft-portfolio-app`
repository (a TypeScript / React Native NFT portfolio client), together with
proofs about the properties its specification claims.

Embedded components and their sources:
* `src/services/nft/normalizer.ts` — `NFTNormalizer` (`fromAlchemy`,
  `normalizeImageUrl`, `generateId`, `parseId`);
* `src/services/nft/detector.ts` — `FarcasterDetector` (`isFarcasterMint`,
  `extractChannel`, `enrichNFT`, `getChannels`) and its static tables;
* the Zustand store (`setNFTs`, `updateNFT`, `addWallet`) and the grid
  presentation helper `groupAndSortNFTs`;
* the data model of `src/types/index.ts`.

Modeling conventions (uniform throughout):
* JavaScript strings are Lean `String`s; the handful of string primitives the
  code uses (`toLowerCase`, `includes`, `startsWith`, `split`, one-shot
  `replace` of a checked prefix) are defined below on `List Char`, matching
  the JavaScript semantics on ASCII data (the only data the code handles).
* JavaScript numbers are modeled as `Int` (the code only ever uses them as
  integral timestamps, counts and price amounts).
* `undefined`-able values are `Option`s; JavaScript truthiness tests on
  strings/numbers (`if (!x)`, `x || y`, `x ? a : b`) are modeled explicitly:
  `none`, `""` and `0` are falsy.
* JavaScript `Map`s are association lists (`List (String × α)`) in insertion
  order: `set` replaces in place or appends, `delete` removes the keyed
  entry, iteration is list order — exactly the guaranteed `Map` semantics.
* Effects (`Date.now()`, generated random ids, `new Date(..).getTime()`)
  enter the embedded functions as explicit parameters.
* `Array.prototype.sort` is modeled as an insertion sort on the same
  comparator; every property proved about a sort below is invariant under
  the choice of conforming (comparison-correct) sort algorithm, and
  `localeCompare` is modeled as lexicographic string comparison.
-/

namespace NFTPortfolio

/-! ## String primitives (JavaScript semantics on ASCII) -/

/-- Boolean prefix test on character lists. -/
def pfx : List Char → List Char → Bool
  | [], _ => true
  | _ :: _, [] => false
  | a :: as, b :: bs => a == b && pfx as bs

/-- Does `pat` occur as a contiguous sublist of `l`?  (JavaScript
`String.prototype.includes` on the underlying characters.) -/
def subList (pat : List Char) : List Char → Bool
  | [] => pat.isEmpty
  | c :: rest => pfx pat (c :: rest) || subList pat rest

/-- JavaScript `s.includes(pat)`. -/
def strContains (s pat : String) : Bool := subList pat.data s.data

/-- ASCII lower-casing of one character (JavaScript `toLowerCase` restricted
to the ASCII range the code's data lives in): code points 65–90 (`A`–`Z`)
shift by 32, everything else is untouched. -/
def lowerChar (c : Char) : Char :=
  if 65 ≤ c.toNat ∧ c.toNat ≤ 90 then Char.ofNat (c.toNat + 32) else c

/-- JavaScript `s.toLowerCase()`. -/
def strLower (s : String) : String := ⟨s.data.map lowerChar⟩

/-- JavaScript `s.startsWith(pat)`. -/
def strStarts (s pat : String) : Bool := pfx pat.data s.data

/-- Drop the first `n` characters (used to model `s.replace(p, '')` when the
code has already checked `s.startsWith(p)`, so the first occurrence of `p`
is the length-`n` prefix). -/
def strDrop (s : String) (n : Nat) : String := ⟨s.data.drop n⟩

/-- JavaScript `s.split(sep)` on the character level: the list of chunks
between occurrences of `sep`; never empty; `[[]]` for the empty string. -/
def splitOnChar (sep : Char) : List Char → List (List Char)
  | [] => [[]]
  | c :: rest =>
    if c == sep then [] :: splitOnChar sep rest
    else
      match splitOnChar sep rest with
      | [] => [[c]]
      | h :: t => (c :: h) :: t

/-- JavaScript `s.split(sep)` for a one-character separator. -/
def jsSplit (s : String) (sep : Char) : List String :=
  (splitOnChar sep s.data).map (fun l => ⟨l⟩)

/-- Lexicographic (code-point) comparison of character lists; models the
ordering JavaScript's default `Array.prototype.sort` puts strings in. -/
def lexLe : List Char → List Char → Bool
  | [], _ => true
  | _ :: _, [] => false
  | a :: as, b :: bs => if a = b then lexLe as bs else decide (a < b)

/-- Boolean lexicographic `≤` on strings. -/
def strLeB (a b : String) : Bool := lexLe a.data b.data

/-- Insert `x` into `l` before the first element `y` with `le x y`. -/
def insertLe (le : α → α → Bool) (x : α) : List α → List α
  | [] => [x]
  | y :: ys => if le x y then x :: y :: ys else y :: insertLe le x ys

/-- Insertion sort by the boolean comparator `le`; the model of
`Array.prototype.sort` (see the header conventions). -/
def sortLe (le : α → α → Bool) : List α → List α
  | [] => []
  | x :: xs => insertLe le x (sortLe le xs)

/-- JavaScript `a || b` on strings (`""` is falsy). -/
def jsOrS (a b : String) : String := if a = "" then b else a

/-- Collapse an optional string, `undefined ↦ ""` (sound inside `jsOrS`
chains whose final alternative is a string, since `undefined` and `""` are
both falsy). -/
def optStr (o : Option String) : String := o.getD ""

/-- JavaScript `a || b` where both sides are `string | undefined`. -/
def jsOrOpt (a b : Option String) : Option String :=
  match a with
  | some s => if s = "" then b else some s
  | none => b

/-! ## Data model (`src/types/index.ts`) -/

inductive ChainType
  | evm
  | solana
deriving DecidableEq

inductive EVMChain
  | ethereum
  | polygon
  | arbitrum
  | optimism
  | base
  | zora
deriving DecidableEq

inductive SortMode
  | recent
  | collection
  | farcaster
  | custom
  | value
deriving DecidableEq

inductive ViewMode
  | grid
  | list
deriving DecidableEq

def chainToStr : ChainType → String
  | .evm => "evm"
  | .solana => "solana"

def evmChainToStr : EVMChain → String
  | .ethereum => "ethereum"
  | .polygon => "polygon"
  | .arbitrum => "arbitrum"
  | .optimism => "optimism"
  | .base => "base"
  | .zora => "zora"

structure Wallet where
  id : String
  address : String
  chain : ChainType
  evmChain : Option EVMChain
  label : Option String
  color : Option String
  addedAt : Int
  isActive : Option Bool
deriving DecidableEq

/-- An attribute value is `string | number` in the source. -/
inductive AttrValue
  | str (s : String)
  | num (n : Int)
deriving DecidableEq

/-- JavaScript `String(value)`. -/
def AttrValue.toStr : AttrValue → String
  | .str s => s
  | .num n => toString n

structure NFTAttribute where
  trait_type : String
  value : AttrValue
  display_type : Option String
deriving DecidableEq

structure FloorPrice where
  amount : Int
  currency : String
deriving DecidableEq

structure NFTCollection where
  name : String
  address : String
  description : Option String
  imageUrl : Option String
  externalUrl : Option String
  floorPrice : Option FloorPrice
deriving DecidableEq

structure NFTMetadata where
  attributes : Option (List NFTAttribute)
  isFarcasterMint : Bool
  farcasterChannel : Option String
  mintedAt : Option Int
  creator : Option String
  royalties : Option Int
deriving DecidableEq

structure NFT where
  id : String
  walletId : String
  chain : ChainType
  evmChain : Option EVMChain
  contractAddress : String
  tokenId : String
  name : String
  description : Option String
  image : String
  imageOptimized : Option String
  animationUrl : Option String
  externalUrl : Option String
  collection : NFTCollection
  metadata : NFTMetadata
  lastFetched : Int
deriving DecidableEq

/-- The derived per-collection aggregate kept by the store. -/
structure Collection where
  id : String
  name : String
  contractAddress : String
  chain : ChainType
  evmChain : Option EVMChain
  nftCount : Nat
  floorPrice : Option FloorPrice
  imageUrl : Option String
  description : Option String
  externalUrl : Option String
deriving DecidableEq

structure CustomGroup where
  id : String
  name : String
  description : Option String
  nftIds : List String
  color : String
  icon : Option String
  createdAt : Int
  updatedAt : Int
deriving DecidableEq

structure FilterOptions where
  collections : Option (List String)
  farcaster : Option Bool
  customGroups : Option (List String)
  chains : Option (List ChainType)
  wallets : Option (List String)
deriving DecidableEq

inductive Theme
  | light
  | dark
  | auto
deriving DecidableEq

inductive ImageQuality
  | low
  | medium
  | high
deriving DecidableEq

structure AppSettings where
  refreshInterval : Int
  showFloorPrice : Bool
  theme : Theme
  defaultView : ViewMode
  defaultSort : SortMode
  imageQuality : ImageQuality
  enableNotifications : Bool
deriving DecidableEq

/-! ## Alchemy provider record shapes (`src/types/index.ts`) -/

structure AlchemyMedia where
  raw : String
  gateway : String
  thumbnail : Option String
  format : Option String
deriving DecidableEq

structure AlchemyContract where
  address : String
  name : Option String
  symbol : Option String
  totalSupply : Option String
  tokenType : String
deriving DecidableEq

structure AlchemyMetadataBlock where
  name : Option String
  description : Option String
  image : Option String
  external_url : Option String
  attributes : Option (List NFTAttribute)
deriving DecidableEq

structure AlchemyOpenSea where
  floorPrice : Option Int
  collectionName : Option String
  imageUrl : Option String
deriving DecidableEq

structure AlchemyContractMetadata where
  name : Option String
  symbol : Option String
  totalSupply : Option String
  tokenType : String
  openSea : Option AlchemyOpenSea
deriving DecidableEq

structure AlchemyNFT where
  contract : AlchemyContract
  tokenId : String
  tokenType : String
  title : String
  description : Option String
  tokenUri : Option String
  media : List AlchemyMedia
  metadata : AlchemyMetadataBlock
  timeLastUpdated : String
  contractMetadata : Option AlchemyContractMetadata
deriving DecidableEq

/-! ## Normalizer (`src/services/nft/normalizer.ts`, class `NFTNormalizer`) -/

/-- Model of `NFTNormalizer.normalizeImageUrl`: rewrite `ipfs://` and `ar://` URIs to
HTTP gateway equivalents; every other string (including `""`) passes
through.  The source's `url.replace('ipfs://', '')` removes the first
occurrence, which the preceding `startsWith` check pins to the prefix. -/
def normalizeImageUrl (url : String) : String :=
  if url = "" then ""
  else if strStarts url "ipfs://" then "https://ipfs.io/ipfs/" ++ strDrop url 7
  else if strStarts url "ar://" then "https://arweave.net/" ++ strDrop url 5
  else url

/-- Model of `NFTNormalizer.fromAlchemy`.  `now` stands for `Date.now()` and
`parseDate` for `(s) => new Date(s).getTime()`, the two environment calls
the method makes. -/
def fromAlchemy (a : AlchemyNFT) (walletId : String) (chain : EVMChain)
    (now : Int) (parseDate : String → Int) : NFT :=
  let contractAddress := strLower a.contract.address
  let tokenId := a.tokenId
  let id := "evm:" ++ evmChainToStr chain ++ ":" ++ contractAddress ++ ":" ++ tokenId
  let image :=
    jsOrS (optStr (a.media.head?.map (fun m => m.gateway)))
      (jsOrS (optStr (a.media.head?.map (fun m => m.raw)))
        (jsOrS (optStr a.metadata.image) ""))
  let thumbnail := a.media.head?.bind (fun m => m.thumbnail)
  { id := id
    walletId := walletId
    chain := .evm
    evmChain := some chain
    contractAddress := contractAddress
    tokenId := tokenId
    name := jsOrS a.title (jsOrS (optStr a.metadata.name) ("#" ++ tokenId))
    description := jsOrOpt a.description a.metadata.description
    image := normalizeImageUrl image
    imageOptimized :=
      match thumbnail with
      | some t => if t = "" then none else some (normalizeImageUrl t)
      | none => none
    animationUrl := none
    externalUrl := a.metadata.external_url
    collection :=
      { name := jsOrS (optStr (a.contractMetadata.bind (fun cm => cm.name)))
          (jsOrS (optStr a.contract.name) "Unknown Collection")
        address := contractAddress
        description := none
        imageUrl := a.contractMetadata.bind (fun cm => cm.openSea.bind (fun o => o.imageUrl))
        externalUrl := none
        floorPrice :=
          match a.contractMetadata.bind (fun cm => cm.openSea.bind (fun o => o.floorPrice)) with
          | some p => if p = 0 then none else some ⟨p, "ETH"⟩
          | none => none }
    metadata :=
      { attributes := some (a.metadata.attributes.getD [])
        isFarcasterMint := false
        farcasterChannel := none
        mintedAt := if a.timeLastUpdated = "" then none else some (parseDate a.timeLastUpdated)
        creator := none
        royalties := none }
    lastFetched := now }

/-- Model of `NFTNormalizer.generateId`: `evm:{chain}:{contract}:{token}` when the
chain is `'evm'` and an `evmChain` is supplied (truthy), otherwise the
generic `{chain}:{contract}:{token}` template. -/
def generateId (chain : ChainType) (contractAddress tokenId : String)
    (evmChain : Option EVMChain) : String :=
  match chain, evmChain with
  | .evm, some ec =>
    "evm:" ++ evmChainToStr ec ++ ":" ++ strLower contractAddress ++ ":" ++ tokenId
  | _, _ => chainToStr chain ++ ":" ++ strLower contractAddress ++ ":" ++ tokenId

/-- The record `NFTNormalizer.parseId` returns.  The source casts the second
segment to `EVMChain` without validating it (`parts[1] as EVMChain`), so the
field holds the raw segment string here. -/
structure ParsedId where
  chain : ChainType
  evmChain : Option String
  contractAddress : String
  tokenId : String
deriving DecidableEq

/-- Model of `NFTNormalizer.parseId`: split on `':'` and recognize the two schemes;
`none` models the source's `null` (the unrecognized-format signal). -/
def parseId (id : String) : Option ParsedId :=
  let parts := jsSplit id ':'
  if parts.head? = some "evm" ∧ parts.length = 4 then
    some ⟨.evm, parts.get? 1, (parts.get? 2).getD "", (parts.get? 3).getD ""⟩
  else if parts.head? = some "solana" ∧ parts.length = 2 then
    some ⟨.solana, none, (parts.get? 1).getD "", (parts.get? 1).getD ""⟩
  else none

/-! ## Farcaster detector (`src/services/nft/detector.ts`) -/

/-- The hardcoded contract allow-list (`FARCASTER_CONTRACTS`). -/
def FARCASTER_CONTRACTS : List String :=
  [ "0x7c74dfe39976dc395529c14e54a597809980e01c"
  , "0x04e2516a2c207e84a1839755675dfd8ef6302f0a"
  , "0x8087039152c472fa74f47398628ff002994056ea"
  , "0x86c1fe6c5b5c9f0c9b8c3a9b0b5e3e9c5c5c5c5c" ]

/-- The fixed keyword set (`FARCASTER_KEYWORDS`). -/
def FARCASTER_KEYWORDS : List String :=
  [ "farcaster"
  , "warpcast"
  , "fc channel"
  , "/channel/"
  , "minted on farcaster"
  , "farcaster mint" ]

/-- Model of `FarcasterDetector.hasKeywords`: guard on falsy text, then
case-insensitive substring search for any keyword. -/
def hasKeywords (text : Option String) : Bool :=
  match text with
  | none => false
  | some t =>
    if t = "" then false
    else FARCASTER_KEYWORDS.any (fun k => strContains (strLower t) k)

/-- Model of `FarcasterDetector.hasAttributeKeywords`: any attribute whose trait type
or stringified value contains a keyword (case-insensitive). -/
def hasAttributeKeywords (attributes : Option (List NFTAttribute)) : Bool :=
  match attributes with
  | none => false
  | some attrs =>
    attrs.any (fun attr =>
      let traitType := strLower attr.trait_type
      let v := strLower attr.value.toStr
      FARCASTER_KEYWORDS.any (fun k => strContains traitType k)
        || FARCASTER_KEYWORDS.any (fun k => strContains v k))

/-- Model of `FarcasterDetector.isFarcasterUrl`: the URL mentions one of the three
Farcaster-adjacent domains. -/
def isFarcasterUrl (url : Option String) : Bool :=
  match url with
  | none => false
  | some u =>
    if u = "" then false
    else
      let lu := strLower u
      strContains lu "farcaster.xyz" || strContains lu "warpcast.com"
        || strContains lu "supercast.xyz"

/-- Model of `FarcasterDetector.isFarcasterMint`: the ordered short-circuit checks of
the source.  `_isBaseChain` mirrors the `isBaseChain` constant the source
computes between checks 1 and 3 but never consults. -/
def isFarcasterMint (nft : NFT) : Bool :=
  if FARCASTER_CONTRACTS.contains (strLower nft.contractAddress) then true
  else
    let _isBaseChain :=
      decide (nft.chain = ChainType.evm) && decide (nft.evmChain = some EVMChain.base)
    if hasKeywords nft.description then true
    else if hasAttributeKeywords nft.metadata.attributes then true
    else if isFarcasterUrl nft.externalUrl then true
    else if hasKeywords (some nft.collection.name) || hasKeywords nft.collection.description then
      true
    else false

/-- Character class `[a-z0-9-]` of the channel regexes (texts are lowered
before scanning, which models the `/i` flag on ASCII). -/
def isChanChar (c : Char) : Bool :=
  ('a' ≤ c && c ≤ 'z') || ('0' ≤ c && c ≤ '9') || c == '-'

/-- JavaScript `\s` on the whitespace the data contains. -/
def isWs (c : Char) : Bool :=
  c == ' ' || c == '\t' || c == '\n' || c == '\r'

/-- First match of `/\/([a-z0-9-]+)/`: the capture after the first `'/'`
followed by at least one class character. -/
def scanSlash : List Char → Option (List Char)
  | [] => none
  | c :: rest =>
    if c == '/' then
      let run := rest.takeWhile isChanChar
      if run.isEmpty then scanSlash rest else some run
    else scanSlash rest

/-- First match of `/pat([a-z0-9-]+)/` for a literal `pat`: the capture
after the first occurrence of `pat` that is followed by at least one class
character (the regex engine retries from the next index otherwise). -/
def scanAfter (pat : List Char) : List Char → Option (List Char)
  | [] => none
  | c :: rest =>
    if pfx pat (c :: rest) then
      let run := ((c :: rest).drop pat.length).takeWhile isChanChar
      if run.isEmpty then scanAfter pat rest else some run
    else scanAfter pat rest

/-- First match of `/pat\s*([a-z0-9-]+)/`: like `scanAfter` with optional
whitespace between the literal and the capture (the two character classes
are disjoint, so greedy `\s*` never backtracks usefully). -/
def scanAfterWs (pat : List Char) : List Char → Option (List Char)
  | [] => none
  | c :: rest =>
    if pfx pat (c :: rest) then
      let run := (((c :: rest).drop pat.length).dropWhile isWs).takeWhile isChanChar
      if run.isEmpty then scanAfterWs pat rest else some run
    else scanAfterWs pat rest

/-- Model of `FarcasterDetector.extractChannelFromText`: the four `CHANNEL_PATTERNS`
tried in source order; the first non-empty capture wins and is returned
lowercased (the text is lowered before scanning). -/
def extractChannelFromText (text : Option String) : Option String :=
  match text with
  | none => none
  | some t =>
    if t = "" then none
    else
      let l := (strLower t).data
      match scanSlash l with
      | some r => some ⟨r⟩
      | none =>
        match scanAfter "farcaster.xyz/".data l with
        | some r => some ⟨r⟩
        | none =>
          match scanAfter "warpcast.com/~/".data l with
          | some r => some ⟨r⟩
          | none =>
            match scanAfterWs "channel:".data l with
            | some r => some ⟨r⟩
            | none => none

/-- Model of `FarcasterDetector.extractChannel`: description, then external URL, then
a channel/farcaster-named attribute's stringified value, then collection
name, then collection description. -/
def extractChannel (nft : NFT) : Option String :=
  match extractChannelFromText nft.description with
  | some c => some c
  | none =>
    match extractChannelFromText nft.externalUrl with
    | some c => some c
    | none =>
      let fromAttr :=
        match (nft.metadata.attributes.getD []).find? (fun attr =>
            strContains (strLower attr.trait_type) "channel"
              || strContains (strLower attr.trait_type) "farcaster") with
        | some attr => extractChannelFromText (some attr.value.toStr)
        | none => none
      match fromAttr with
      | some c => some c
      | none =>
        match extractChannelFromText (some nft.collection.name) with
        | some c => some c
        | none => extractChannelFromText nft.collection.description

/-- Model of `FarcasterDetector.enrichNFT`: copy of the record with the two detection
fields of the metadata block set. -/
def enrichNFT (nft : NFT) : NFT :=
  let isFc := isFarcasterMint nft
  let farcasterChannel := if isFc then extractChannel nft else none
  { nft with
    metadata :=
      { nft.metadata with
        isFarcasterMint := isFc
        farcasterChannel := farcasterChannel } }

/-- One step of the `Set`-building loop of `getChannels`: add the record's
channel when it is truthy and not yet present (JavaScript `Set.add` keeps
first-insertion order). -/
def chanStep (acc : List String) (n : NFT) : List String :=
  match n.metadata.farcasterChannel with
  | some c => if c = "" then acc else if c ∈ acc then acc else acc ++ [c]
  | none => acc

/-- Model of `FarcasterDetector.getChannels`: collect into a `Set` (modeled as
first-occurrence dedup) the truthy channels of the Farcaster-flagged
records, then sort (`Array.from(set).sort()`). -/
def getChannels (nfts : List NFT) : List String :=
  let flagged := nfts.filter (fun n => n.metadata.isFarcasterMint)
  sortLe strLeB (flagged.foldl chanStep [])

/-! ## Grid presentation (`NFTGrid`: `groupAndSortNFTs`) -/

/-- An element of the display list: a section header or an NFT card
(the source's duck-typed `NFT | SectionHeader` union). -/
inductive GridItem
  | header (title : String) (count : Option Nat)
  | nft (n : NFT)
deriving DecidableEq

/-- One step of the `Map`-based grouping of the `'collection'` branch:
append to the keyed group, or append a new singleton group (JavaScript
`Map` insertion order). -/
def insertGroup (key : String) (n : NFT) :
    List (String × List NFT) → List (String × List NFT)
  | [] => [(key, [n])]
  | (k, g) :: rest =>
    if k = key then (k, g ++ [n]) :: rest else (k, g) :: insertGroup key n rest

/-- The grouping pass of the `'collection'` branch, keyed by
`nft.collection.address`. -/
def groupByAddr (nfts : List NFT) : List (String × List NFT) :=
  nfts.foldl (fun acc n => insertGroup n.collection.address n acc) []

/-- The collection name of a group's first member — the source reads
`collectionNfts[0].collection.name`; the `[]` arm is unreachable padding
(groups are built non-empty). -/
def firstName (g : List NFT) : String :=
  match g with
  | [] => ""
  | x :: _ => x.collection.name

/-- Emit `header(name, count)` followed by the members, per group in order
(the `forEach`/`push` loop of the `'collection'` branch). -/
def emitGroups : List (String × List NFT) → List GridItem
  | [] => []
  | (_, g) :: rest =>
    (GridItem.header (firstName g) (some g.length) :: g.map GridItem.nft) ++ emitGroups rest

/-- Model of `a.collection.floorPrice?.amount || 0` — the sort key of the `'value'`
branch. -/
def priceOf (n : NFT) : Int := (n.collection.floorPrice.map (fun f => f.amount)).getD 0

/-- Model of `groupAndSortNFTs` (`NFTGrid` component): the switch over the sort
mode.  `'custom'` falls through to the `'recent'` default, as in the
source; descending numeric comparators are modeled by flipping the
comparison. -/
def groupAndSortNFTs (nfts : List NFT) (sortMode : SortMode) : List GridItem :=
  match sortMode with
  | .collection =>
    let grouped := groupByAddr nfts
    let sorted := sortLe (fun a b => strLeB (firstName a.2) (firstName b.2)) grouped
    emitGroups sorted
  | .farcaster =>
    let farcasterNfts := nfts.filter (fun n => n.metadata.isFarcasterMint)
    let otherNfts := nfts.filter (fun n => !n.metadata.isFarcasterMint)
    (if 0 < farcasterNfts.length then
      GridItem.header "Farcaster Mints" (some farcasterNfts.length)
        :: farcasterNfts.map GridItem.nft
    else [])
    ++ (if 0 < otherNfts.length then
      GridItem.header "Other NFTs" (some otherNfts.length) :: otherNfts.map GridItem.nft
    else [])
  | .value => (sortLe (fun a b => decide (priceOf b ≤ priceOf a)) nfts).map GridItem.nft
  | _ => (sortLe (fun a b => decide (b.lastFetched ≤ a.lastFetched)) nfts).map GridItem.nft

/-- Sum of the `count` fields of the headers of a display list (the
quantity claim C4 constrains). -/
def headerCountSum : List GridItem → Nat
  | [] => 0
  | .header _ c :: rest => c.getD 0 + headerCountSum rest
  | .nft _ :: rest => headerCountSum rest

/-- Scan of a display list checking that every NFT element after a header
carries the collection name the header announced (`title` is the header in
force; elements before any header are unconstrained). -/
def chunksOkAux (title : Option String) : List GridItem → Bool
  | [] => true
  | .header t _ :: rest => chunksOkAux (some t) rest
  | .nft n :: rest =>
    (match title with
      | some t => n.collection.name == t
      | none => true)
      && chunksOkAux title rest

/-- Every non-header element between a header and the next has the
collection name of its header. -/
def chunksOk (l : List GridItem) : Bool := chunksOkAux none l

/-! ## Store (Zustand `useStore` definition) -/

/-- Model of `Map.prototype.get` on an insertion-ordered association list. -/
def mapGet (k : String) : List (String × α) → Option α
  | [] => none
  | (k', v) :: rest => if k' = k then some v else mapGet k rest

/-- Model of `Map.prototype.set`: replace in place, else append. -/
def mapSet (k : String) (v : α) : List (String × α) → List (String × α)
  | [] => [(k, v)]
  | (k', v') :: rest =>
    if k' = k then (k, v) :: rest else (k', v') :: mapSet k v rest

/-- Model of `Map.prototype.delete`: drop the entry keyed `k`. -/
def mapDelete (k : String) (m : List (String × α)) : List (String × α) :=
  m.filter (fun e => decide (e.1 ≠ k))

/-- The whole store state (`AppStore` minus its methods). -/
structure AppStore where
  wallets : List Wallet
  activeWalletId : Option String
  nfts : List (String × NFT)
  collections : List (String × Collection)
  customGroups : List CustomGroup
  viewMode : ViewMode
  sortMode : SortMode
  filterOptions : FilterOptions
  settings : AppSettings
deriving DecidableEq

/-- Model of `defaultSettings` of the store module. -/
def defaultSettings : AppSettings :=
  { refreshInterval := 5
    showFloorPrice := true
    theme := .auto
    defaultView := .grid
    defaultSort := .recent
    imageQuality := .medium
    enableNotifications := false }

/-- The store's initial state. -/
def initialState : AppStore :=
  { wallets := []
    activeWalletId := none
    nfts := []
    collections := []
    customGroups := []
    viewMode := .grid
    sortMode := .recent
    filterOptions := ⟨none, none, none, none, none⟩
    settings := defaultSettings }

/-- The collection-aggregate update `setNFTs` performs for one inserted
NFT: create the aggregate with count 1 on first sighting of
`{chain}:{contractAddress}`, else increment its count. -/
def foldCollection (nft : NFT) (cm : List (String × Collection)) :
    List (String × Collection) :=
  let collectionId := chainToStr nft.chain ++ ":" ++ nft.contractAddress
  match mapGet collectionId cm with
  | none =>
    mapSet collectionId
      { id := collectionId
        name := nft.collection.name
        contractAddress := nft.contractAddress
        chain := nft.chain
        evmChain := nft.evmChain
        nftCount := 1
        floorPrice := nft.collection.floorPrice
        imageUrl := nft.collection.imageUrl
        description := nft.collection.description
        externalUrl := none } cm
  | some existing => mapSet collectionId { existing with nftCount := existing.nftCount + 1 } cm

/-- Model of `setNFTs(walletId, nfts)`: snapshot the stored records whose
`walletId` matches and delete each by its record `id`, then fold the new
records in — `Map.set` keyed by `nft.id` plus the collection-aggregate
update, in one pass. -/
def setNFTs (walletId : String) (newNfts : List NFT) (s : AppStore) : AppStore :=
  let victims := (s.nfts.map Prod.snd).filter (fun nft => nft.walletId == walletId)
  let afterDelete := victims.foldl (fun m nft => mapDelete nft.id m) s.nfts
  let folded :=
    newNfts.foldl
      (fun (p : List (String × NFT) × List (String × Collection)) nft =>
        (mapSet nft.id nft p.1, foldCollection nft p.2))
      (afterDelete, s.collections)
  { s with nfts := folded.1, collections := folded.2 }

/-- Model of `Partial<NFT>`: each field optionally supplied. -/
structure NFTPatch where
  id : Option String := none
  walletId : Option String := none
  chain : Option ChainType := none
  evmChain : Option (Option EVMChain) := none
  contractAddress : Option String := none
  tokenId : Option String := none
  name : Option String := none
  description : Option (Option String) := none
  image : Option String := none
  imageOptimized : Option (Option String) := none
  animationUrl : Option (Option String) := none
  externalUrl : Option (Option String) := none
  collection : Option NFTCollection := none
  metadata : Option NFTMetadata := none
  lastFetched : Option Int := none
deriving DecidableEq

/-- The spread `{ ...existing, ...updates }`: supplied fields win. -/
def mergeNFT (n : NFT) (p : NFTPatch) : NFT :=
  { id := p.id.getD n.id
    walletId := p.walletId.getD n.walletId
    chain := p.chain.getD n.chain
    evmChain := p.evmChain.getD n.evmChain
    contractAddress := p.contractAddress.getD n.contractAddress
    tokenId := p.tokenId.getD n.tokenId
    name := p.name.getD n.name
    description := p.description.getD n.description
    image := p.image.getD n.image
    imageOptimized := p.imageOptimized.getD n.imageOptimized
    animationUrl := p.animationUrl.getD n.animationUrl
    externalUrl := p.externalUrl.getD n.externalUrl
    collection := p.collection.getD n.collection
    metadata := p.metadata.getD n.metadata
    lastFetched := p.lastFetched.getD n.lastFetched }

/-- Model of `updateNFT(id, updates)`: merge into the existing record, or leave the
state untouched when the id is absent. -/
def updateNFT (id : String) (p : NFTPatch) (s : AppStore) : AppStore :=
  match mapGet id s.nfts with
  | some existing => { s with nfts := mapSet id (mergeNFT existing p) s.nfts }
  | none => s

/-- Model of `Omit<Wallet, 'id' | 'addedAt'>` — the argument of `addWallet`. -/
structure WalletInput where
  address : String
  chain : ChainType
  evmChain : Option EVMChain
  label : Option String
  color : Option String
  isActive : Option Bool
deriving DecidableEq

/-- Model of `addWallet(wallet)`: append the new wallet (id generated from the
clock and a random suffix — here the parameters `id` and `now`) with
`isActive: true`, and `activeWalletId: state.activeWalletId || id`
(JavaScript `||`: `undefined` and `""` are falsy). -/
def addWallet (w : WalletInput) (id : String) (now : Int) (s : AppStore) : AppStore :=
  let newWallet : Wallet :=
    { id := id
      address := w.address
      chain := w.chain
      evmChain := w.evmChain
      label := w.label
      color := w.color
      addedAt := now
      isActive := some true }
  { s with
    wallets := s.wallets ++ [newWallet]
    activeWalletId :=
      match s.activeWalletId with
      | some a => if a = "" then some id else some a
      | none => some id }

/-! ## Shared concrete records for witnesses and counterexamples -/

/-- A plain Solana NFT with no Farcaster signal anywhere. -/
def sampleNFT : NFT :=
  { id := "solana:mint1"
    walletId := "w1"
    chain := .solana
    evmChain := none
    contractAddress := "coll1"
    tokenId := "mint1"
    name := "Art One"
    description := none
    image := ""
    imageOptimized := none
    animationUrl := none
    externalUrl := none
    collection := ⟨"Cool Cats", "coll1", none, none, none, none⟩
    metadata := ⟨some [], false, none, none, none, none⟩
    lastFetched := 0 }

/-- Signal 1: the lowercased contract address is on the allow-list. -/
def contractSignal (nft : NFT) : Bool :=
  FARCASTER_CONTRACTS.contains (strLower nft.contractAddress)

/-- Signal 2: the description contains a keyword (case-insensitive). -/
def descriptionSignal (nft : NFT) : Bool := hasKeywords nft.description

/-- Signal 3: an attribute's trait type or stringified value contains a
keyword. -/
def attributeSignal (nft : NFT) : Bool := hasAttributeKeywords nft.metadata.attributes

/-- Signal 4: the external URL mentions a known Farcaster domain. -/
def urlSignal (nft : NFT) : Bool := isFarcasterUrl nft.externalUrl

/-- Signal 5: the collection name or collection description contains a
keyword. -/
def collectionSignal (nft : NFT) : Bool :=
  hasKeywords (some nft.collection.name) || hasKeywords nft.collection.description

/-- A Base-chain EVM record carrying none of the five signals. -/
def sampleBaseNFT : NFT :=
  { sampleNFT with
    id := "evm:base:0xaaa:1"
    chain := .evm
    evmChain := some .base
    contractAddress := "0xaaa"
    tokenId := "1" }

/-- A stored record whose map key (`"k1"`) differs from its own id
(`"k2"`) — reachable through `updateNFT(id, { id: … })`. -/
def badNFT : NFT := { sampleNFT with id := "k2", walletId := "w" }

/-- A store holding `badNFT` under the alien key `"k1"`. -/
def badStore : AppStore := { initialState with nfts := [("k1", badNFT)] }

/-- A record carrying a channel name while not flagged as a Farcaster
mint. -/
def unflaggedChanNFT : NFT :=
  { sampleNFT with metadata := ⟨some [], false, some "abc", none, none, none⟩ }

/-- A second copy of `sampleNFT` under a fresh id (same collection). -/
def sampleNFT2 : NFT := { sampleNFT with id := "solana:mint2" }

/-- Two records sharing a collection address but not a collection name. -/
def dupAddrNFT1 : NFT :=
  { sampleNFT with id := "solana:x1", collection := ⟨"Name X", "shared", none, none, none, none⟩ }

def dupAddrNFT2 : NFT :=
  { sampleNFT with id := "solana:x2", collection := ⟨"Name Y", "shared", none, none, none, none⟩ }

/-! ## Helper lemmas about the association-list `Map` model -/

theorem mapGet_mapSet_self (k : String) (v : α) :
    ∀ l : List (String × α), mapGet k (mapSet k v l) = some v := by
  intro l
  induction l with
  | nil => simp [mapSet, mapGet]
  | cons e rest ih =>
    by_cases h : e.1 = k
    · simp [mapSet, mapGet, h]
    · simpa [mapSet, mapGet, h] using ih

/-! ## Claim C9 — `enrichNFT` is a frame: only the two detection fields
of the metadata block may change -/

/-- Claim C9: for every NFT record, `enrichNFT` returns a record agreeing
with its input on every field other than `metadata.isFarcasterMint` and
`metadata.farcasterChannel` — in particular `id`, `walletId`, `chain`,
`evmChain`, `contractAddress`, `tokenId`, `name`, `description`, `image`,
`imageOptimized`, `animationUrl`, `externalUrl`, `collection`,
`lastFetched`, and the metadata fields `attributes`, `mintedAt`,
`creator` and `royalties` are all unchanged. -/
theorem enrichNFT_frame (nft : NFT) :
    (enrichNFT nft).id = nft.id
    ∧ (enrichNFT nft).walletId = nft.walletId
    ∧ (enrichNFT nft).chain = nft.chain
    ∧ (enrichNFT nft).evmChain = nft.evmChain
    ∧ (enrichNFT nft).contractAddress = nft.contractAddress
    ∧ (enrichNFT nft).tokenId = nft.tokenId
    ∧ (enrichNFT nft).name = nft.name
    ∧ (enrichNFT nft).description = nft.description
    ∧ (enrichNFT nft).image = nft.image
    ∧ (enrichNFT nft).imageOptimized = nft.imageOptimized
    ∧ (enrichNFT nft).animationUrl = nft.animationUrl
    ∧ (enrichNFT nft).externalUrl = nft.externalUrl
    ∧ (enrichNFT nft).collection = nft.collection
    ∧ (enrichNFT nft).lastFetched = nft.lastFetched
    ∧ (enrichNFT nft).metadata.attributes = nft.metadata.attributes
    ∧ (enrichNFT nft).metadata.mintedAt = nft.metadata.mintedAt
    ∧ (enrichNFT nft).metadata.creator = nft.metadata.creator
    ∧ (enrichNFT nft).metadata.royalties = nft.metadata.royalties :=
  ⟨rfl, rfl, rfl, rfl, rfl, rfl, rfl, rfl, rfl, rfl, rfl, rfl, rfl, rfl, rfl, rfl,
    rfl, rfl⟩

/-! ## Claim C7 — the concrete `fromAlchemy` scenario -/

/-- Claim C7: normalizing an EVM provider record with empty `media`,
`metadata.image = "ipfs://abc"`, contract address `"0xABC"`, token id
`"7"` and chain `ethereum` yields id `"evm:ethereum:0xabc:7"` and image
`"https://ipfs.io/ipfs/abc"` — whatever the record's remaining fields and
the ambient clock hold. -/
theorem fromAlchemy_scenario
    (walletId title ctype ntype timeLastUpdated : String)
    (description tokenUri cname csym ctot mname mdesc mext : Option String)
    (mattrs : Option (List NFTAttribute))
    (contractMetadata : Option AlchemyContractMetadata)
    (now : Int) (parseDate : String → Int) :
    (fromAlchemy
        { contract := ⟨"0xABC", cname, csym, ctot, ctype⟩
          tokenId := "7"
          tokenType := ntype
          title := title
          description := description
          tokenUri := tokenUri
          media := []
          metadata := ⟨mname, mdesc, some "ipfs://abc", mext, mattrs⟩
          timeLastUpdated := timeLastUpdated
          contractMetadata := contractMetadata }
        walletId .ethereum now parseDate).id = "evm:ethereum:0xabc:7"
    ∧ (fromAlchemy
        { contract := ⟨"0xABC", cname, csym, ctot, ctype⟩
          tokenId := "7"
          tokenType := ntype
          title := title
          description := description
          tokenUri := tokenUri
          media := []
          metadata := ⟨mname, mdesc, some "ipfs://abc", mext, mattrs⟩
          timeLastUpdated := timeLastUpdated
          contractMetadata := contractMetadata }
        walletId .ethereum now parseDate).image = "https://ipfs.io/ipfs/abc" :=
  ⟨rfl, rfl⟩

/-! ## Claim C8 — `updateNFT` semantics -/

/-- Claim C8: for every store state, `updateNFT(id, patch)` is a silent
no-op (the whole state is unchanged, nothing is surfaced) when `id` is not
a key of the NFT map, and stores the field-wise merge of the existing
record with the patch when it is. -/
theorem updateNFT_semantics (s : AppStore) (id : String) (p : NFTPatch) :
    (mapGet id s.nfts = none → updateNFT id p s = s)
    ∧ ∀ nft, mapGet id s.nfts = some nft →
        mapGet id (updateNFT id p s).nfts = some (mergeNFT nft p) := by
  constructor
  · intro h
    unfold updateNFT
    rw [h]
  · intro nft h
    unfold updateNFT
    rw [h]
    exact mapGet_mapSet_self id (mergeNFT nft p) s.nfts

/-- Witness for claim C8 at a one-entry store: `"zzz"` is absent (no-op)
and `"solana:mint1"` is present (merged). -/
theorem updateNFT_semantics_witness :
    (mapGet "zzz" ({ initialState with nfts := [("solana:mint1", sampleNFT)] } : AppStore).nfts
        = none
      ∧ updateNFT "zzz" { name := some "Renamed" }
          { initialState with nfts := [("solana:mint1", sampleNFT)] }
        = { initialState with nfts := [("solana:mint1", sampleNFT)] })
    ∧ (mapGet "solana:mint1"
          ({ initialState with nfts := [("solana:mint1", sampleNFT)] } : AppStore).nfts
        = some sampleNFT
      ∧ mapGet "solana:mint1"
          (updateNFT "solana:mint1" { name := some "Renamed" }
            { initialState with nfts := [("solana:mint1", sampleNFT)] }).nfts
        = some (mergeNFT sampleNFT { name := some "Renamed" })) :=
  ⟨⟨by decide,
      (updateNFT_semantics { initialState with nfts := [("solana:mint1", sampleNFT)] }
          "zzz" { name := some "Renamed" }).1 (by decide)⟩,
    ⟨by decide,
      (updateNFT_semantics { initialState with nfts := [("solana:mint1", sampleNFT)] }
          "solana:mint1" { name := some "Renamed" }).2 sampleNFT (by decide)⟩⟩

/-! ## Claim C10 — `addWallet` semantics -/

/-- Claim C10 (amended): `addWallet` appends exactly one new wallet with
`isActive` set to true, leaving all existing wallets unchanged, and sets
`activeWalletId` to the new wallet's id exactly when it was previously
unset **or the empty string** (JavaScript `||` treats `""` as falsy);
otherwise `activeWalletId` is unchanged. -/
theorem addWallet_semantics (w : WalletInput) (id : String) (now : Int) (s : AppStore) :
    (addWallet w id now s).wallets
      = s.wallets
        ++ [{ id := id, address := w.address, chain := w.chain, evmChain := w.evmChain,
              label := w.label, color := w.color, addedAt := now, isActive := some true }]
    ∧ (addWallet w id now s).activeWalletId
      = (if s.activeWalletId = none ∨ s.activeWalletId = some "" then some id
        else s.activeWalletId) := by
  refine ⟨rfl, ?_⟩
  unfold addWallet
  rcases h : s.activeWalletId with _ | a
  · simp
  · by_cases ha : a = "" <;> simp [ha]

/-- Counterexample for claim C10 as stated: with `activeWalletId` already
set — to the empty string — `addWallet` still overwrites it with the new
wallet's id. -/
theorem addWallet_claim_counterexample :
    ({ initialState with activeWalletId := some "" } : AppStore).activeWalletId ≠ none
    ∧ (addWallet ⟨"0xdead", .evm, some .base, none, none, none⟩ "wallet_1" 0
          { initialState with activeWalletId := some "" }).activeWalletId
      ≠ ({ initialState with activeWalletId := some "" } : AppStore).activeWalletId := by
  exact ⟨by decide, by decide⟩

/-! ## Claim C6 — idempotence of `normalizeImageUrl` -/

theorem strStarts_ipfs_of_h {s : String} {l : List Char} (h : s.data = 'h' :: l) :
    strStarts s "ipfs://" = false := by
  unfold strStarts
  rw [h]
  rfl

theorem strStarts_ar_of_h {s : String} {l : List Char} (h : s.data = 'h' :: l) :
    strStarts s "ar://" = false := by
  unfold strStarts
  rw [h]
  rfl

/-- Any string starting with the character `h` — in particular every
gateway URL the rewrite produces — passes through `normalizeImageUrl`
unchanged. -/
theorem normalizeImageUrl_fix_of_h {s : String} {l : List Char} (h : s.data = 'h' :: l) :
    normalizeImageUrl s = s := by
  have hne : ¬ s = "" := by
    intro e
    subst e
    simp at h
  simp [normalizeImageUrl, hne, strStarts_ipfs_of_h h, strStarts_ar_of_h h]

/-- Claim C6: `normalizeImageUrl` is idempotent on every input string —
the `ipfs://` and `ar://` rewrites land on `https://…` gateway URLs that
pass through a second application, and every other string (the empty
string included) is already a fixed point. -/
theorem normalizeImageUrl_idem (url : String) :
    normalizeImageUrl (normalizeImageUrl url) = normalizeImageUrl url := by
  by_cases h0 : url = ""
  · subst h0
    rfl
  · by_cases h1 : strStarts url "ipfs://" = true
    · have e : normalizeImageUrl url = "https://ipfs.io/ipfs/" ++ strDrop url 7 := by
        simp [normalizeImageUrl, h0, h1]
      rw [e]
      apply normalizeImageUrl_fix_of_h
        (l := "ttps://ipfs.io/ipfs/".data ++ (strDrop url 7).data)
      rw [String.data_append]
      rfl
    · by_cases h2 : strStarts url "ar://" = true
      · have e : normalizeImageUrl url = "https://arweave.net/" ++ strDrop url 5 := by
          simp [normalizeImageUrl, h0, h1, h2]
        rw [e]
        apply normalizeImageUrl_fix_of_h
          (l := "ttps://arweave.net/".data ++ (strDrop url 5).data)
        rw [String.data_append]
        rfl
      · have e : normalizeImageUrl url = url := by
          simp [normalizeImageUrl, h0, h1, h2]
        rw [e]
        exact e

/-! ## Claim C3 — `isFarcasterMint` is the disjunction of the five
signals; Base-chain membership is not one of them -/

/-- Claim C3: `isFarcasterMint` returns true exactly when one of the five
listed signals holds; and whenever all five signals are false the result
is false — for a Base-chain record just as for any other, because the
`isBaseChain` value the source computes never feeds the result. -/
theorem isFarcasterMint_signals (nft : NFT) :
    isFarcasterMint nft
      = (contractSignal nft || descriptionSignal nft || attributeSignal nft
          || urlSignal nft || collectionSignal nft)
    ∧ ((contractSignal nft || descriptionSignal nft || attributeSignal nft
          || urlSignal nft || collectionSignal nft) = false →
        isFarcasterMint nft = false) := by
  have main :
      isFarcasterMint nft
        = (contractSignal nft || descriptionSignal nft || attributeSignal nft
            || urlSignal nft || collectionSignal nft) := by
    cases hA : FARCASTER_CONTRACTS.contains (strLower nft.contractAddress) <;>
      cases hB : hasKeywords nft.description <;>
      cases hC : hasAttributeKeywords nft.metadata.attributes <;>
      cases hD : isFarcasterUrl nft.externalUrl <;>
      cases hE : (hasKeywords (some nft.collection.name)
        || hasKeywords nft.collection.description) <;>
      simp [isFarcasterMint, contractSignal, descriptionSignal, attributeSignal,
        urlSignal, collectionSignal, hA, hB, hC, hD, hE]
  exact ⟨main, fun h => by rw [main, h]⟩

/-- Witness for claim C3: a record on the Base chain with all five signals
false is not classified as a Farcaster mint. -/
theorem isFarcasterMint_signals_witness :
    sampleBaseNFT.chain = ChainType.evm
    ∧ sampleBaseNFT.evmChain = some EVMChain.base
    ∧ (contractSignal sampleBaseNFT || descriptionSignal sampleBaseNFT
        || attributeSignal sampleBaseNFT || urlSignal sampleBaseNFT
        || collectionSignal sampleBaseNFT) = false
    ∧ isFarcasterMint sampleBaseNFT = false :=
  ⟨rfl, rfl, by decide, (isFarcasterMint_signals sampleBaseNFT).2 (by decide)⟩

/-! ## Claim C1 — `generateId` / `parseId` round-trip -/

theorem splitOnChar_ne_nil (sep : Char) : ∀ l, splitOnChar sep l ≠ [] := by
  intro l
  induction l with
  | nil => simp [splitOnChar]
  | cons c rest ih =>
    by_cases h : c == sep
    · simp [splitOnChar, h]
    · rcases hs : splitOnChar sep rest with _ | ⟨hd, tl⟩
      · exact absurd hs ih
      · simp [splitOnChar, h, hs]

theorem splitOnChar_nosep (sep : Char) :
    ∀ l, sep ∉ l → splitOnChar sep l = [l] := by
  intro l
  induction l with
  | nil => intro _; rfl
  | cons c rest ih =>
    intro h
    have hc : ¬ c == sep := by
      simp only [beq_iff_eq]
      intro e
      exact h (e ▸ List.mem_cons_self c rest)
    have hrest : sep ∉ rest := fun m => h (List.mem_cons_of_mem c m)
    simp [splitOnChar, hc, ih hrest]

theorem splitOnChar_append (sep : Char) :
    ∀ l₁ l₂, sep ∉ l₁ →
      splitOnChar sep (l₁ ++ sep :: l₂) = l₁ :: splitOnChar sep l₂ := by
  intro l₁
  induction l₁ with
  | nil => intro l₂ _; simp [splitOnChar]
  | cons c rest ih =>
    intro l₂ h
    have hc : ¬ c == sep := by
      simp only [beq_iff_eq]
      intro e
      exact h (e ▸ List.mem_cons_self c rest)
    have hrest : sep ∉ rest := fun m => h (List.mem_cons_of_mem c m)
    simp [splitOnChar, hc, ih l₂ hrest]

theorem splitOnChar_sep_len (sep : Char) :
    ∀ l₁ l₂, 2 ≤ (splitOnChar sep (l₁ ++ sep :: l₂)).length := by
  intro l₁
  induction l₁ with
  | nil =>
    intro l₂
    have := splitOnChar_ne_nil sep l₂
    have hpos : 0 < (splitOnChar sep l₂).length := List.length_pos.mpr this
    simp [splitOnChar]
    omega
  | cons c rest ih =>
    intro l₂
    by_cases h : c == sep
    · have := splitOnChar_ne_nil sep (rest ++ sep :: l₂)
      have hpos : 0 < (splitOnChar sep (rest ++ sep :: l₂)).length := List.length_pos.mpr this
      simp [splitOnChar, h]
      omega
    · rcases hs : splitOnChar sep (rest ++ sep :: l₂) with _ | ⟨hd, tl⟩
      · exact absurd hs (splitOnChar_ne_nil sep _)
      · have hlen := ih l₂
        rw [hs] at hlen
        simp [splitOnChar, h, hs]
        simp at hlen
        omega

theorem split_four (sep : Char) (a b c d : List Char)
    (ha : sep ∉ a) (hb : sep ∉ b) (hc : sep ∉ c) (hd : sep ∉ d) :
    splitOnChar sep (a ++ sep :: (b ++ sep :: (c ++ sep :: d))) = [a, b, c, d] := by
  rw [splitOnChar_append sep a _ ha, splitOnChar_append sep b _ hb,
    splitOnChar_append sep c _ hc, splitOnChar_nosep sep d hd]

theorem lowerChar_ne_colon (c : Char) (h : c ≠ ':') : lowerChar c ≠ ':' := by
  unfold lowerChar
  split
  · rename_i hb
    obtain ⟨h65, h90⟩ := hb
    generalize hn : c.toNat = n at h65 h90
    interval_cases n <;> decide
  · exact h

theorem strLower_colon_free (s : String) (h : ':' ∉ s.data) :
    ':' ∉ (strLower s).data := by
  intro m
  have : ∃ c ∈ s.data, lowerChar c = ':' := by
    simpa [strLower] using m
  obtain ⟨c, hc, he⟩ := this
  exact lowerChar_ne_colon c (fun e => h (e ▸ hc)) he

theorem evmChainToStr_colon_free (ec : EVMChain) : ':' ∉ (evmChainToStr ec).data := by
  cases ec <;> decide

/-- Claim C1 (amended): for chain `'evm'` with an `evmChain` given and
colon-free contract address and token id, `parseId ∘ generateId` recovers
the tuple with the contract address lowercased; for chain `'solana'`,
`generateId` emits a three-segment id (`solana:{contract}:{token}`) that
`parseId` always reports as unrecognized (`none`) — it never recovers a
Solana tuple. -/
theorem generateId_parseId_roundtrip :
    (∀ (ec : EVMChain) (addr tok : String), ':' ∉ addr.data → ':' ∉ tok.data →
      parseId (generateId .evm addr tok (some ec))
        = some ⟨.evm, some (evmChainToStr ec), strLower addr, tok⟩)
    ∧ ∀ (addr tok : String) (ev : Option EVMChain),
        parseId (generateId .solana addr tok ev) = none := by
  constructor
  · intro ec addr tok ha ht
    have hshape : (generateId ChainType.evm addr tok (some ec)).data
        = "evm".data
          ++ ':' :: ((evmChainToStr ec).data
            ++ ':' :: ((strLower addr).data ++ ':' :: tok.data)) := by
      show ("evm:" ++ evmChainToStr ec ++ ":" ++ strLower addr ++ ":" ++ tok).data = _
      simp only [String.data_append, List.append_assoc]
      rfl
    have hparts : jsSplit (generateId ChainType.evm addr tok (some ec)) ':'
        = ["evm", evmChainToStr ec, strLower addr, tok] := by
      unfold jsSplit
      rw [hshape, split_four ':' _ _ _ _ (by decide) (evmChainToStr_colon_free ec)
        (strLower_colon_free addr ha) ht]
      rfl
    simp only [parseId, hparts]
    simp [List.get?]
  · intro addr tok ev
    have hshape : (generateId ChainType.solana addr tok ev).data
        = "solana".data ++ ':' :: ((strLower addr).data ++ ':' :: tok.data) := by
      have hgen : generateId ChainType.solana addr tok ev
          = chainToStr ChainType.solana ++ ":" ++ strLower addr ++ ":" ++ tok := by
        cases ev <;> rfl
      rw [hgen]
      simp only [String.data_append, List.append_assoc]
      rfl
    have hsplit : splitOnChar ':' (generateId ChainType.solana addr tok ev).data
        = "solana".data :: splitOnChar ':' ((strLower addr).data ++ ':' :: tok.data) := by
      rw [hshape, splitOnChar_append ':' _ _ (by decide)]
    have hlen : 2 ≤ (splitOnChar ':' ((strLower addr).data ++ ':' :: tok.data)).length :=
      splitOnChar_sep_len ':' _ _
    rcases hL : splitOnChar ':' ((strLower addr).data ++ ':' :: tok.data) with _ | ⟨x, xs⟩
    · rw [hL] at hlen; simp at hlen
    · rcases xs with _ | ⟨y, ys⟩
      · rw [hL] at hlen; simp at hlen
      · have hparts : jsSplit (generateId ChainType.solana addr tok ev) ':'
            = "solana" :: (⟨x⟩ : String) :: (⟨y⟩ : String)
              :: ys.map (fun l => (⟨l⟩ : String)) := by
          unfold jsSplit
          rw [hsplit, hL]
          rfl
        simp only [parseId, hparts]
        rw [if_neg, if_neg]
        · rintro ⟨h1, h2⟩
          simp at h2
        · rintro ⟨h1, _⟩
          simp at h1

/-- Witness for claim C1 at concrete inputs: the evm round-trip at
`("0xAbC", "7", base)` and the solana divergence at `("abc", "9")`. -/
theorem generateId_parseId_roundtrip_witness :
    (':' ∉ "0xAbC".data) ∧ (':' ∉ "7".data)
    ∧ parseId (generateId .evm "0xAbC" "7" (some .base))
      = some ⟨.evm, some "base", "0xabc", "7"⟩
    ∧ parseId (generateId .solana "abc" "9" none) = none :=
  ⟨by decide, by decide,
    generateId_parseId_roundtrip.1 .base "0xAbC" "7" (by decide) (by decide),
    generateId_parseId_roundtrip.2 "abc" "9" none⟩

/-- Counterexample for claim C1 as stated: for the solana family the
round-trip hits the unrecognized-format signal (`none`), not the Solana
tuple. -/
theorem generateId_parseId_claim_counterexample :
    parseId (generateId .solana "abc" "7" none) = none := by
  decide

/-! ## Claim C2 — `setNFTs(w, X)` then `setNFTs(w, [])` -/

/-- Surviving a pass of keyed deletions means having been in the map with a
key different from every deleted record's id. -/
theorem mem_foldl_delete :
    ∀ (vs : List NFT) (m : List (String × NFT)) (e : String × NFT),
      e ∈ vs.foldl (fun m nft => mapDelete nft.id m) m →
      e ∈ m ∧ ∀ v ∈ vs, e.1 ≠ v.id := by
  intro vs
  induction vs with
  | nil =>
    intro m e h
    exact ⟨h, by simp⟩
  | cons w rest ih =>
    intro m e h
    obtain ⟨hm', hrest⟩ := ih (mapDelete w.id m) e h
    have he1 : e ∈ m := List.mem_of_mem_filter hm'
    have hkey : e.1 ≠ w.id := by
      have := List.of_mem_filter hm'
      simpa using this
    refine ⟨he1, ?_⟩
    intro v hv
    rcases List.mem_cons.mp hv with rfl | hv'
    · exact hkey
    · exact hrest v hv'

/-- Model of `Map.set` keyed by the record's own id preserves the key-matches-id
invariant. -/
theorem wf_mapSet (n : NFT) :
    ∀ l : List (String × NFT), (∀ e ∈ l, (Prod.snd e).id = e.1) →
      ∀ e ∈ mapSet n.id n l, (Prod.snd e).id = e.1 := by
  intro l
  induction l with
  | nil =>
    intro _ e he
    simp only [mapSet, List.mem_singleton] at he
    subst he
    rfl
  | cons hd rest ih =>
    intro hwf e he
    by_cases hk : hd.1 = n.id
    · simp only [mapSet, hk, if_pos] at he
      rcases List.mem_cons.mp he with rfl | h'
      · rfl
      · exact hwf e (List.mem_cons_of_mem hd h')
    · simp only [mapSet, hk, if_neg, not_false_iff] at he
      rcases List.mem_cons.mp he with rfl | h'
      · exact hwf hd (List.mem_cons_self hd rest)
      · exact ih (fun x hx => hwf x (List.mem_cons_of_mem hd hx)) e h'

theorem wf_foldl_ins :
    ∀ (X : List NFT) (m : List (String × NFT)), (∀ e ∈ m, (Prod.snd e).id = e.1) →
      ∀ e ∈ X.foldl (fun m nft => mapSet nft.id nft m) m, (Prod.snd e).id = e.1 := by
  intro X
  induction X with
  | nil => intro m hwf e he; exact hwf e he
  | cons n rest ih =>
    intro m hwf e he
    exact ih (mapSet n.id n m) (wf_mapSet n m hwf) e he

/-- The interleaved `forEach` of `setNFTs` acts independently on the NFT
map and the collection map. -/
theorem foldl_ins_split :
    ∀ (X : List NFT) (a : List (String × NFT)) (b : List (String × Collection)),
      X.foldl (fun (p : List (String × NFT) × List (String × Collection)) nft =>
          (mapSet nft.id nft p.1, foldCollection nft p.2)) (a, b)
        = (X.foldl (fun m nft => mapSet nft.id nft m) a,
          X.foldl (fun cm nft => foldCollection nft cm) b) := by
  intro X
  induction X with
  | nil => intro a b; rfl
  | cons n rest ih => intro a b; exact ih (mapSet n.id n a) (foldCollection n b)

theorem setNFTs_components (walletId : String) (newNfts : List NFT) (s : AppStore) :
    (setNFTs walletId newNfts s).nfts
      = newNfts.foldl (fun m nft => mapSet nft.id nft m)
          (((s.nfts.map Prod.snd).filter (fun nft => nft.walletId == walletId)).foldl
            (fun m nft => mapDelete nft.id m) s.nfts)
    ∧ (setNFTs walletId newNfts s).collections
      = newNfts.foldl (fun cm nft => foldCollection nft cm) s.collections := by
  constructor <;>
    · simp only [setNFTs]
      rw [foldl_ins_split]

/-- Claim C2 (amended): on a store whose NFT-map entries are keyed by
their record's id (the invariant every store-built map satisfies), a
non-empty `setNFTs(w, X)` followed by `setNFTs(w, [])` leaves zero NFT
records whose wallet id equals `w`, and the second call leaves the
Collection aggregates exactly as the first call left them. -/
theorem setNFTs_clear_keeps_collections (s : AppStore) (w : String) (X : List NFT)
    (hwf : ∀ e ∈ s.nfts, (Prod.snd e).id = e.1) (hne : X ≠ []) :
    ((setNFTs w [] (setNFTs w X s)).nfts.filter (fun e => (Prod.snd e).walletId == w)) = []
    ∧ (setNFTs w [] (setNFTs w X s)).collections = (setNFTs w X s).collections := by
  obtain ⟨h1n, h1c⟩ := setNFTs_components w X s
  obtain ⟨h2n, h2c⟩ := setNFTs_components w [] (setNFTs w X s)
  have wf1 : ∀ e ∈ (setNFTs w X s).nfts, (Prod.snd e).id = e.1 := by
    rw [h1n]
    apply wf_foldl_ins
    intro e he
    exact hwf e (mem_foldl_delete _ s.nfts e he).1
  constructor
  · rw [h2n]
    rw [List.filter_eq_nil_iff]
    intro e he
    simp only [List.foldl_nil] at he
    obtain ⟨hmem, hkeys⟩ := mem_foldl_delete _ (setNFTs w X s).nfts e he
    simp only [beq_iff_eq]
    intro hw
    have hvict : (Prod.snd e) ∈
        ((setNFTs w X s).nfts.map Prod.snd).filter (fun nft => nft.walletId == w) := by
      apply List.mem_filter.mpr
      refine ⟨List.mem_map.mpr ⟨e, hmem, rfl⟩, by simp [hw]⟩
    exact hkeys (Prod.snd e) hvict (wf1 e hmem).symm
  · rw [h2c]
    simp

/-- Witness for claim C2 on the empty (trivially well-keyed) store: after
`setNFTs("w1", [sampleNFT])` and `setNFTs("w1", [])` no record with wallet
id `"w1"` remains, and the collection aggregates are untouched by the
second call. -/
theorem setNFTs_clear_keeps_collections_witness :
    (∀ e ∈ (initialState : AppStore).nfts, (Prod.snd e).id = e.1)
    ∧ ([sampleNFT] ≠ ([] : List NFT))
    ∧ ((setNFTs "w1" [] (setNFTs "w1" [sampleNFT] initialState)).nfts.filter
        (fun e => (Prod.snd e).walletId == "w1")) = []
    ∧ (setNFTs "w1" [] (setNFTs "w1" [sampleNFT] initialState)).collections
      = (setNFTs "w1" [sampleNFT] initialState).collections :=
  ⟨by simp [initialState], by decide,
    (setNFTs_clear_keeps_collections initialState "w1" [sampleNFT]
        (by simp [initialState]) (by decide)).1,
    (setNFTs_clear_keeps_collections initialState "w1" [sampleNFT]
        (by simp [initialState]) (by decide)).2⟩

/-- Counterexample for claim C2 as stated (over every store state): on
`badStore` the deletion pass removes by record id (`"k2"`), misses the
entry keyed `"k1"`, and a record with wallet id `"w"` survives both
calls. -/
theorem setNFTs_claim_counterexample :
    ¬ (((setNFTs "w" [] (setNFTs "w" [{ sampleNFT with walletId := "w" }] badStore)).nfts.filter
          (fun e => (Prod.snd e).walletId == "w")) = []
      ∧ (setNFTs "w" [] (setNFTs "w" [{ sampleNFT with walletId := "w" }] badStore)).collections
        = (setNFTs "w" [{ sampleNFT with walletId := "w" }] badStore).collections) := by
  intro h
  exact absurd h.1 (by decide)

/-! ## Claim C5 — `getChannels` -/

theorem insertLe_perm (le : α → α → Bool) (x : α) :
    ∀ l, List.Perm (insertLe le x l) (x :: l) := by
  intro l
  induction l with
  | nil => exact List.Perm.refl _
  | cons y ys ih =>
    by_cases h : le x y = true
    · simp only [insertLe, h, if_pos]
      exact List.Perm.refl _
    · simp only [insertLe, h, if_neg, not_false_iff]
      exact (List.Perm.cons y ih).trans (List.Perm.swap x y ys)

theorem sortLe_perm (le : α → α → Bool) : ∀ l, List.Perm (sortLe le l) l := by
  intro l
  induction l with
  | nil => exact List.Perm.refl _
  | cons x xs ih => exact (insertLe_perm le x (sortLe le xs)).trans (List.Perm.cons x ih)

theorem mem_sortLe (le : α → α → Bool) (l : List α) (a : α) :
    a ∈ sortLe le l ↔ a ∈ l :=
  (sortLe_perm le l).mem_iff

/-- The boolean comparator agrees with `≤` on strings (`String`'s
lexicographic linear order). -/
theorem lexLe_iff_not_lex :
    ∀ x y : List Char, lexLe x y = true ↔ ¬ List.Lex (· < ·) y x := by
  intro x
  induction x with
  | nil =>
    intro y
    exact iff_of_true rfl (List.Lex.not_nil_right _ y)
  | cons a as ih =>
    intro y
    cases y with
    | nil =>
      apply iff_of_false
      · simp [lexLe]
      · intro h
        exact h (List.Lex.nil)
    | cons b bs =>
      by_cases hab : a = b
      · subst hab
        have hred : lexLe (a :: as) (a :: bs) = lexLe as bs := by
          simp [lexLe]
        rw [hred, ih bs]
        exact not_congr List.Lex.cons_iff.symm
      · by_cases hlt : a < b
        · apply iff_of_true
          · simp [lexLe, hab, hlt]
          · intro h
            cases h with
            | cons h' => exact hab rfl
            | rel h' => exact absurd h' (lt_asymm hlt)
        · have hba : b < a := by
            rcases lt_trichotomy a b with h | h | h
            · exact absurd h hlt
            · exact absurd h hab
            · exact h
          apply iff_of_false
          · simp [lexLe, hab, hlt]
          · intro h
            exact h (List.Lex.rel hba)

theorem strLeB_iff {a b : String} : strLeB a b = true ↔ a ≤ b := by
  unfold strLeB
  rw [lexLe_iff_not_lex]
  exact not_congr String.lt_iff_toList_lt.symm

theorem mem_insertLe (le : α → α → Bool) (x : α) (l : List α) (a : α) :
    a ∈ insertLe le x l ↔ a = x ∨ a ∈ l := by
  rw [(insertLe_perm le x l).mem_iff]
  exact List.mem_cons

theorem insertLe_sorted_strings (x : String) (l : List String)
    (h : List.Sorted (· ≤ ·) l) : List.Sorted (· ≤ ·) (insertLe strLeB x l) := by
  induction l with
  | nil => simp [insertLe]
  | cons y ys ih =>
    obtain ⟨hy, hys⟩ := List.sorted_cons.mp h
    by_cases hc : strLeB x y = true
    · simp only [insertLe, hc, if_pos]
      apply List.sorted_cons.mpr
      refine ⟨?_, h⟩
      intro b hb
      rcases List.mem_cons.mp hb with rfl | hb'
      · exact strLeB_iff.mp hc
      · exact le_trans (strLeB_iff.mp hc) (hy b hb')
    · simp only [insertLe, hc, if_neg, not_false_iff]
      apply List.sorted_cons.mpr
      constructor
      · intro b hb
        rcases (mem_insertLe strLeB x ys b).mp hb with rfl | hb'
        · exact le_of_not_le (fun hxy => hc (strLeB_iff.mpr hxy))
        · exact hy b hb'
      · exact ih hys

theorem sortLe_sorted_strings (l : List String) :
    List.Sorted (· ≤ ·) (sortLe strLeB l) := by
  induction l with
  | nil => simp [sortLe]
  | cons x xs ih => exact insertLe_sorted_strings x (sortLe strLeB xs) ih

theorem mem_chanStep (acc : List String) (n : NFT) (c : String) :
    c ∈ chanStep acc n
      ↔ c ∈ acc ∨ (n.metadata.farcasterChannel = some c ∧ c ≠ "") := by
  unfold chanStep
  rcases hch : n.metadata.farcasterChannel with _ | d
  · simp
  · by_cases hd : d = ""
    · subst hd
      simp only [if_pos rfl]
      constructor
      · exact Or.inl
      · rintro (h | ⟨he, hne⟩)
        · exact h
        · cases he
          exact absurd rfl hne
    · by_cases hmem : d ∈ acc
      · simp only [if_neg hd, if_pos hmem]
        constructor
        · exact Or.inl
        · rintro (h | ⟨he, _⟩)
          · exact h
          · cases he
            exact hmem
      · simp only [if_neg hd, if_neg hmem, List.mem_append, List.mem_singleton]
        constructor
        · rintro (h | rfl)
          · exact Or.inl h
          · exact Or.inr ⟨rfl, hd⟩
        · rintro (h | ⟨he, _⟩)
          · exact Or.inl h
          · cases he
            exact Or.inr rfl

theorem mem_chan_fold (flagged : List NFT) :
    ∀ (acc : List String) (c : String),
      c ∈ flagged.foldl chanStep acc
        ↔ c ∈ acc ∨ ∃ n ∈ flagged, n.metadata.farcasterChannel = some c ∧ c ≠ "" := by
  induction flagged with
  | nil => intro acc c; simp
  | cons n rest ih =>
    intro acc c
    have : (n :: rest).foldl chanStep acc = rest.foldl chanStep (chanStep acc n) := rfl
    rw [this, ih (chanStep acc n) c, mem_chanStep]
    constructor
    · rintro ((h | hn) | ⟨m, hm, hc⟩)
      · exact Or.inl h
      · exact Or.inr ⟨n, List.mem_cons_self n rest, hn⟩
      · exact Or.inr ⟨m, List.mem_cons_of_mem n hm, hc⟩
    · rintro (h | ⟨m, hm, hc⟩)
      · exact Or.inl (Or.inl h)
      · rcases List.mem_cons.mp hm with rfl | hm'
        · exact Or.inl (Or.inr hc)
        · exact Or.inr ⟨m, hm', hc⟩

theorem nodup_chanStep (acc : List String) (n : NFT) (h : acc.Nodup) :
    (chanStep acc n).Nodup := by
  unfold chanStep
  rcases n.metadata.farcasterChannel with _ | d
  · exact h
  · by_cases hd : d = ""
    · simp [hd, h]
    · by_cases hmem : d ∈ acc
      · simp [hd, hmem, h]
      · simp only [if_neg hd, if_neg hmem]
        rw [List.nodup_append]
        refine ⟨h, List.nodup_singleton d, ?_⟩
        intro a ha had
        rw [List.mem_singleton] at had
        exact hmem (had ▸ ha)

theorem nodup_chan_fold (flagged : List NFT) :
    ∀ acc : List String, acc.Nodup → (flagged.foldl chanStep acc).Nodup := by
  induction flagged with
  | nil => intro acc h; exact h
  | cons n rest ih => intro acc h; exact ih (chanStep acc n) (nodup_chanStep acc n h)

/-- Claim C5 (amended): `getChannels` returns exactly the distinct
non-empty channel names **of the elements flagged as Farcaster mints**,
sorted ascending (lexicographically), without duplicates. -/
theorem getChannels_spec (nfts : List NFT) :
    List.Sorted (· ≤ ·) (getChannels nfts)
    ∧ (getChannels nfts).Nodup
    ∧ ∀ c, c ∈ getChannels nfts
        ↔ ∃ n ∈ nfts, n.metadata.isFarcasterMint = true
            ∧ n.metadata.farcasterChannel = some c ∧ c ≠ "" := by
  refine ⟨sortLe_sorted_strings _, ?_, ?_⟩
  · show (sortLe strLeB
      ((nfts.filter fun n => n.metadata.isFarcasterMint).foldl chanStep [])).Nodup
    exact (sortLe_perm strLeB _).symm.nodup
      (nodup_chan_fold (nfts.filter fun n => n.metadata.isFarcasterMint) [] List.nodup_nil)
  · intro c
    simp only [getChannels]
    rw [mem_sortLe, mem_chan_fold]
    simp [List.mem_filter, and_assoc]

/-- Counterexample for claim C5 as stated: an unflagged record's channel
name occurs in the list's elements but `getChannels` drops it, because the
source first filters to Farcaster-flagged records. -/
theorem getChannels_claim_counterexample :
    ¬ (("abc" ∈ getChannels [unflaggedChanNFT])
        ↔ ∃ n ∈ [unflaggedChanNFT],
            n.metadata.farcasterChannel = some "abc" ∧ "abc" ≠ "") := by
  intro h
  have hmem := h.mpr ⟨unflaggedChanNFT, by simp, rfl, by decide⟩
  have hempty : getChannels [unflaggedChanNFT] = [] := by decide
  rw [hempty] at hmem
  exact absurd hmem (List.not_mem_nil "abc")

/-! ## Claim C4 — `arrange(list, 'collection')` -/

theorem headerCountSum_append (l₁ l₂ : List GridItem) :
    headerCountSum (l₁ ++ l₂) = headerCountSum l₁ + headerCountSum l₂ := by
  induction l₁ with
  | nil => simp [headerCountSum]
  | cons it rest ih =>
    cases it with
    | header t c => simp [headerCountSum, ih, Nat.add_assoc]
    | nft n => simp [headerCountSum, ih]

theorem headerCountSum_map_nft (g : List NFT) :
    headerCountSum (g.map GridItem.nft) = 0 := by
  induction g with
  | nil => rfl
  | cons x g' ih => simpa [headerCountSum] using ih

theorem headerCountSum_emitGroups (gs : List (String × List NFT)) :
    headerCountSum (emitGroups gs) = (gs.map (fun p => p.2.length)).sum := by
  induction gs with
  | nil => rfl
  | cons p rest ih =>
    show headerCountSum
        ((GridItem.header (firstName p.2) (some p.2.length) :: p.2.map GridItem.nft)
          ++ emitGroups rest) = _
    rw [headerCountSum_append]
    show (some p.2.length).getD 0 + headerCountSum (p.2.map GridItem.nft)
        + headerCountSum (emitGroups rest) = _
    rw [headerCountSum_map_nft, ih]
    simp

theorem insertGroup_sumLen (key : String) (n : NFT) :
    ∀ gs : List (String × List NFT),
      ((insertGroup key n gs).map (fun p => p.2.length)).sum
        = ((gs.map (fun p => p.2.length)).sum) + 1 := by
  intro gs
  induction gs with
  | nil => simp [insertGroup]
  | cons p rest ih =>
    rcases p with ⟨k, g⟩
    by_cases hk : k = key
    · simp [insertGroup, hk]
      omega
    · simp [insertGroup, hk, ih]
      omega

theorem groupFold_sumLen :
    ∀ (l : List NFT) (acc : List (String × List NFT)),
      ((l.foldl (fun acc n => insertGroup n.collection.address n acc) acc).map
          (fun p => p.2.length)).sum
        = ((acc.map (fun p => p.2.length)).sum) + l.length := by
  intro l
  induction l with
  | nil => intro acc; simp
  | cons n rest ih =>
    intro acc
    have : ((n :: rest).foldl (fun acc n => insertGroup n.collection.address n acc) acc)
        = rest.foldl (fun acc n => insertGroup n.collection.address n acc)
            (insertGroup n.collection.address n acc) := rfl
    rw [this, ih, insertGroup_sumLen]
    simp
    omega

theorem groupByAddr_sumLen (nfts : List NFT) :
    ((groupByAddr nfts).map (fun p => p.2.length)).sum = nfts.length := by
  have := groupFold_sumLen nfts []
  simpa [groupByAddr] using this

theorem insertGroup_inv (src : List NFT) (n : NFT)
    (gs : List (String × List NFT)) (hn : n ∈ src)
    (h : ∀ p ∈ gs, p.2 ≠ [] ∧ ∀ x ∈ p.2, x.collection.address = p.1 ∧ x ∈ src) :
    ∀ p ∈ insertGroup n.collection.address n gs,
      p.2 ≠ [] ∧ ∀ x ∈ p.2, x.collection.address = p.1 ∧ x ∈ src := by
  induction gs with
  | nil =>
    intro p hp
    simp only [insertGroup, List.mem_singleton] at hp
    subst hp
    refine ⟨by simp, ?_⟩
    intro x hx
    simp only [List.mem_singleton] at hx
    subst hx
    exact ⟨rfl, hn⟩
  | cons q rest ih =>
    rcases q with ⟨k, g⟩
    by_cases hk : k = n.collection.address
    · have hstep : insertGroup n.collection.address n ((k, g) :: rest)
          = (k, g ++ [n]) :: rest := by
        show (if k = n.collection.address then (k, g ++ [n]) :: rest
            else (k, g) :: insertGroup n.collection.address n rest) = _
        rw [if_pos hk]
      intro p hp
      rw [hstep] at hp
      rcases List.mem_cons.mp hp with rfl | hp'
      · obtain ⟨hne, hmem⟩ := h (k, g) (List.mem_cons_self _ _)
        refine ⟨by simp, ?_⟩
        intro x hx
        rcases List.mem_append.mp hx with hx' | hx'
        · exact hmem x hx'
        · simp only [List.mem_singleton] at hx'
          subst hx'
          exact ⟨hk.symm, hn⟩
      · exact h p (List.mem_cons_of_mem _ hp')
    · have hstep : insertGroup n.collection.address n ((k, g) :: rest)
          = (k, g) :: insertGroup n.collection.address n rest := by
        show (if k = n.collection.address then (k, g ++ [n]) :: rest
            else (k, g) :: insertGroup n.collection.address n rest) = _
        rw [if_neg hk]
      intro p hp
      rw [hstep] at hp
      rcases List.mem_cons.mp hp with rfl | hp'
      · exact h (k, g) (List.mem_cons_self _ _)
      · exact ih (fun q hq => h q (List.mem_cons_of_mem _ hq)) p hp'

theorem groupFold_inv (src : List NFT) :
    ∀ (l : List NFT) (acc : List (String × List NFT)),
      (∀ x ∈ l, x ∈ src) →
      (∀ p ∈ acc, p.2 ≠ [] ∧ ∀ x ∈ p.2, x.collection.address = p.1 ∧ x ∈ src) →
      ∀ p ∈ l.foldl (fun acc n => insertGroup n.collection.address n acc) acc,
        p.2 ≠ [] ∧ ∀ x ∈ p.2, x.collection.address = p.1 ∧ x ∈ src := by
  intro l
  induction l with
  | nil => intro acc _ hacc p hp; exact hacc p hp
  | cons n rest ih =>
    intro acc hl hacc p hp
    exact ih (insertGroup n.collection.address n acc)
      (fun x hx => hl x (List.mem_cons_of_mem n hx))
      (insertGroup_inv src n acc (hl n (List.mem_cons_self n rest)) hacc) p hp

theorem groupByAddr_inv (nfts : List NFT) :
    ∀ p ∈ groupByAddr nfts,
      p.2 ≠ [] ∧ ∀ x ∈ p.2, x.collection.address = p.1 ∧ x ∈ nfts := by
  exact groupFold_inv nfts nfts [] (fun _ h => h) (by simp)

theorem chunksOkAux_map_nft (ttl : String) (g : List NFT) (rest : List GridItem)
    (hg : ∀ x ∈ g, x.collection.name = ttl) :
    chunksOkAux (some ttl) (g.map GridItem.nft ++ rest)
      = chunksOkAux (some ttl) rest := by
  induction g with
  | nil => rfl
  | cons x g' ih =>
    have hx : x.collection.name = ttl := hg x (List.mem_cons_self x g')
    have ih' := ih (fun y hy => hg y (List.mem_cons_of_mem x hy))
    show ((x.collection.name == ttl)
        && chunksOkAux (some ttl) (g'.map GridItem.nft ++ rest))
      = chunksOkAux (some ttl) rest
    rw [hx, ih']
    simp

theorem chunksOk_emitGroups :
    ∀ gs : List (String × List NFT),
      (∀ p ∈ gs, ∀ x ∈ p.2, x.collection.name = firstName p.2) →
      ∀ t, chunksOkAux t (emitGroups gs) = true := by
  intro gs
  induction gs with
  | nil => intro _ t; rfl
  | cons p rest ih =>
    intro h t
    show chunksOkAux t
        ((GridItem.header (firstName p.2) (some p.2.length) :: p.2.map GridItem.nft)
          ++ emitGroups rest) = true
    rw [List.cons_append]
    show chunksOkAux (some (firstName p.2)) (p.2.map GridItem.nft ++ emitGroups rest) = true
    rw [chunksOkAux_map_nft _ _ _ (h p (List.mem_cons_self p rest))]
    exact ih (fun q hq => h q (List.mem_cons_of_mem p hq)) (some (firstName p.2))

/-- Claim C4 (amended): for every NFT list in which collection name is a
function of collection address (any two elements sharing an address share
a name), `arrange(list, 'collection')` produces header counts summing to
the input length, and every non-header element between a header and the
next has collection name equal to that header's title. -/
theorem arrange_collection_blocks (nfts : List NFT)
    (hname : ∀ a ∈ nfts, ∀ b ∈ nfts,
      a.collection.address = b.collection.address →
      a.collection.name = b.collection.name) :
    headerCountSum (groupAndSortNFTs nfts SortMode.collection) = nfts.length
    ∧ chunksOk (groupAndSortNFTs nfts SortMode.collection) = true := by
  have harr : groupAndSortNFTs nfts SortMode.collection
      = emitGroups (sortLe (fun a b => strLeB (firstName a.2) (firstName b.2))
          (groupByAddr nfts)) := rfl
  have hperm : List.Perm
      (sortLe (fun a b => strLeB (firstName a.2) (firstName b.2)) (groupByAddr nfts))
      (groupByAddr nfts) :=
    sortLe_perm _ _
  constructor
  · rw [harr, headerCountSum_emitGroups]
    rw [(hperm.map (fun p => p.2.length)).sum_eq]
    exact groupByAddr_sumLen nfts
  · rw [harr]
    apply chunksOk_emitGroups
    intro p hp x hx
    have hp' : p ∈ groupByAddr nfts := hperm.mem_iff.mp hp
    obtain ⟨hne, hmem⟩ := groupByAddr_inv nfts p hp'
    rcases hg : p.2 with _ | ⟨y, ys⟩
    · exact absurd hg hne
    · have hy := hmem y (by rw [hg]; exact List.mem_cons_self y ys)
      have hx' := hmem x hx
      show x.collection.name = firstName (y :: ys)
      show x.collection.name = y.collection.name
      exact hname x hx'.2 y hy.2 (hx'.1.trans hy.1.symm)

/-- Witness for claim C4 on a three-element list (two collections, names
functional in addresses). -/
theorem arrange_collection_blocks_witness :
    (∀ a ∈ [sampleNFT, sampleNFT2, dupAddrNFT1], ∀ b ∈ [sampleNFT, sampleNFT2, dupAddrNFT1],
      a.collection.address = b.collection.address →
      a.collection.name = b.collection.name)
    ∧ headerCountSum (groupAndSortNFTs [sampleNFT, sampleNFT2, dupAddrNFT1]
        SortMode.collection) = 3
    ∧ chunksOk (groupAndSortNFTs [sampleNFT, sampleNFT2, dupAddrNFT1]
        SortMode.collection) = true :=
  ⟨by decide,
    (arrange_collection_blocks [sampleNFT, sampleNFT2, dupAddrNFT1] (by decide)).1,
    (arrange_collection_blocks [sampleNFT, sampleNFT2, dupAddrNFT1] (by decide)).2⟩

/-- Counterexample for claim C4 as stated: two records sharing a contract
address but differing in collection name land in one block whose header
carries the first record's name, so the second block member contradicts
the header's title. -/
theorem arrange_collection_claim_counterexample :
    ¬ (headerCountSum (groupAndSortNFTs [dupAddrNFT1, dupAddrNFT2] SortMode.collection)
          = ([dupAddrNFT1, dupAddrNFT2] : List NFT).length
        ∧ chunksOk (groupAndSortNFTs [dupAddrNFT1, dupAddrNFT2] SortMode.collection)
          = true) := by
  intro h
  exact absurd h.2 (by decide)

end NFTPortfolio
